import Mathlib

/-!
Verification of the merge algorithm of `src/mj_utils_merge_mujoco_models.cpp`
(the `mc_mujoco` model-merging module).

The C++ code manipulates pugixml documents in place.  We embed it shallowly:

* a pugixml element node becomes `XNode` (tag, ordered attribute list,
  ordered child list); in-place mutation becomes explicit state passing;
* a pugixml handle to a "null node" (missing child) behaves as a node with no
  attributes and no children, so a merger receiving `root.child(tag)` is
  modelled by passing `childOrEmpty root tag`;
* `boost::filesystem::path` becomes `BPath` (an absolute flag plus a
  component list); `boost::filesystem::absolute` takes the current working
  directory as an explicit `cwd` parameter;
* `mc_rtc::log::critical` conflict messages become `Diag` values returned
  alongside the merged node; `mc_rtc::log::error_and_throw` becomes `Except`;
* the filesystem read performed by `pugi::xml_document::load_file` is a
  parameter `fs : String → Option XNode` mapping a file path to its parsed
  document node (`none` = the file cannot be parsed); the single file write
  of `merge_mujoco_models` is modelled as the `Option XNode` component of its
  result (`none` = no output file written);
* `pugi::xml_attribute::as_int` (strtol-style parsing) becomes `asInt`, and
  `set_value(int)` (printf `%d` rendering) becomes `intToDec`; machine-int
  overflow of the accumulated counters is out of scope and `Int` is used.
-/

namespace McMujoco

/-- A pugixml element: tag name, attribute list (in document order), children
(in document order). -/
inductive XNode : Type where
  | mk : String → List (String × String) → List XNode → XNode

def XNode.tag : XNode → String
  | .mk t _ _ => t

def XNode.attrs : XNode → List (String × String)
  | .mk _ a _ => a

def XNode.children : XNode → List XNode
  | .mk _ _ c => c

/-- `node.attribute(a).value()`: the value of the first attribute named `a`,
if present. -/
def getAttr (n : XNode) (a : String) : Option String :=
  (n.attrs.find? (fun p => p.1 == a)).map (fun p => p.2)

def setAttrList : List (String × String) → String → String → List (String × String)
  | [], _, _ => []
  | p :: ps, a, v => if p.1 == a then (p.1, v) :: ps else p :: setAttrList ps a v

/-- `node.attribute(a).set_value(v)`: overwrite the value of the first
attribute named `a` (no-op when absent, matching a null attribute handle). -/
def setAttr (n : XNode) (a v : String) : XNode :=
  .mk n.tag (setAttrList n.attrs a v) n.children

/-- `node.append_attribute(a).set_value(v)`. -/
def appendAttr (n : XNode) (a v : String) : XNode :=
  .mk n.tag (n.attrs ++ [(a, v)]) n.children

/-- `node.child(name)`: first child with the given tag. -/
def findChild (n : XNode) (name : String) : Option XNode :=
  n.children.find? (fun c => c.tag == name)

/-- A missing pugixml child behaves as an empty node (no attributes, no
children) towards every operation the merge code performs on it. -/
def childOrEmpty (n : XNode) (name : String) : XNode :=
  (findChild n name).getD (.mk name [] [])

/-- One conflict message emitted by `mc_rtc::log::critical` in
`merge_mujoco_node`: the section (`node`), the attribute, the file being
merged in, the incoming (losing) value and the already-merged (kept) value. -/
structure Diag where
  node : String
  attrName : String
  fileIn : String
  valueIn : String
  valueMerged : String
deriving DecidableEq, Repr

/-! ## Integer parsing and printing (pugixml `as_int` / `set_value(int)`) -/

def digitVal (c : Char) : Nat := c.toNat - 48

def digitsVal (cs : List Char) : Nat :=
  cs.foldl (fun a c => a * 10 + digitVal c) 0

def isSpaceChar (c : Char) : Bool :=
  c == ' ' || c == '\t' || c == '\n' || c == '\r' || c == '\x0b' || c == '\x0c'

/-- strtol-style base-10 parse: skip whitespace, optional sign, leading
digits; anything else yields 0 (overflow clamping is out of scope). -/
def asIntChars (cs0 : List Char) : Int :=
  let cs := cs0.dropWhile isSpaceChar
  match cs with
  | [] => 0
  | c :: rest =>
    if c == '-' then -(digitsVal (rest.takeWhile Char.isDigit) : Int)
    else if c == '+' then (digitsVal (rest.takeWhile Char.isDigit) : Int)
    else (digitsVal ((c :: rest).takeWhile Char.isDigit) : Int)

/-- `pugi::xml_attribute::as_int`. -/
def asInt (s : String) : Int := asIntChars s.data

/-- Decimal digits of `n`, most significant first, prepended to `acc`; the
fuel argument (any bound `≥ n` works) keeps the recursion structural. -/
def natToDecAux : Nat → Nat → List Char → List Char
  | 0, _, acc => acc
  | fuel + 1, n, acc =>
    if n = 0 then acc else natToDecAux fuel (n / 10) (Char.ofNat (48 + n % 10) :: acc)

def natToDec (n : Nat) : List Char :=
  if n = 0 then ['0'] else natToDecAux n n []

/-- printf `%d` rendering used by `xml_attribute::set_value(int)`. -/
def intToDec (i : Int) : String :=
  if i < 0 then String.mk ('-' :: natToDec i.natAbs) else String.mk (natToDec i.toNat)

/-! ## Paths (`boost::filesystem`) -/

/-- A POSIX `boost::filesystem::path`: whether it is absolute and its
component list. -/
structure BPath where
  abs : Bool
  comps : List String
deriving DecidableEq, Repr

/-- `p / q` (in the merge code the right operand is always relative). -/
def pjoin (p q : BPath) : BPath := ⟨p.abs, p.comps ++ q.comps⟩

/-- `p.parent_path()`. -/
def pparent (p : BPath) : BPath := ⟨p.abs, p.comps.dropLast⟩

/-- `boost::filesystem::absolute(p)` with the process working directory
passed explicitly. -/
def pabsolute (cwd p : BPath) : BPath := if p.abs then p else pjoin cwd p

/-- A POSIX path string is absolute iff it starts with a slash. -/
def isAbsStr (s : String) : Bool :=
  match s.data with
  | [] => false
  | c :: _ => c == '/'

/-- Split a character list at every slash. -/
def splitSlashAux : List Char → List Char → List (List Char)
  | [], cur => [cur.reverse]
  | c :: cs, cur =>
    if c == '/' then cur.reverse :: splitSlashAux cs []
    else splitSlashAux cs (c :: cur)

/-- `bfs::path(s)`: decompose a path string into its non-empty components. -/
def parsePath (s : String) : BPath :=
  ⟨isAbsStr s, ((splitSlashAux s.data []).map String.mk).filter (fun c => c != "")⟩

/-- `path::c_str()`: render a path back to a string. -/
def pathStr (p : BPath) : String :=
  (if p.abs then "/" else "") ++ String.intercalate "/" p.comps

/-! ## The merge code itself -/

/-- `merge_mujoco_size`'s fixed counter list (source lines 23-25). -/
def sizeAttributes : List String :=
  ["njmax", "nconmax", "nstack", "nuserdata", "nkey",
   "nuser_body", "nuser_jnt", "nuser_geom", "nuser_site", "nuser_cam",
   "nuser_tendon", "nuser_actuator", "nuser_sensor"]

/-- Body of `merge_mujoco_size`'s loop for one counter name: copy when absent
on the output, otherwise accumulate `out.as_int() + in.as_int()`. -/
def mergeSizeAttr (inN out : XNode) (a : String) : XNode :=
  match getAttr inN a with
  | none => out
  | some v =>
    match getAttr out a with
    | some w => setAttr out a (intToDec (asInt w + asInt v))
    | none => appendAttr out a v

/-- `merge_mujoco_size` (source lines 21-43). -/
def merge_mujoco_size (inN out : XNode) : XNode :=
  sizeAttributes.foldl (mergeSizeAttr inN) out

/-- Body of `merge_mujoco_node`'s loop for one incoming attribute: skip
excluded names; copy when absent on the output; keep the existing value and
emit a conflict diagnostic when present with a different value. -/
def mergeNodeStep (exclude : List String) (nodeName fileIn : String)
    (acc : XNode × List Diag) (p : String × String) : XNode × List Diag :=
  if exclude.contains p.1 then acc
  else
    match getAttr acc.1 p.1 with
    | none => (appendAttr acc.1 p.1 p.2, acc.2)
    | some w =>
      if w == p.2 then acc
      else (acc.1, acc.2 ++ [⟨nodeName, p.1, fileIn, p.2, w⟩])

/-- `merge_mujoco_node` (source lines 45-70); the emitted log messages are
returned as `Diag` values. -/
def merge_mujoco_node (nodeName fileIn : String) (inN out : XNode)
    (exclude : List String) : XNode × List Diag :=
  inN.attrs.foldl (mergeNodeStep exclude nodeName fileIn) (out, [])

/-- `merge_mujoco_compiler` (source lines 72-75). -/
def merge_mujoco_compiler (fileIn : String) (inN out : XNode) : XNode × List Diag :=
  merge_mujoco_node "compiler" fileIn inN out ["meshdir", "texturedir"]

def replaceFirstChildD (name : String) (f : XNode → XNode × List Diag) :
    List XNode → List XNode × List Diag
  | [] => ([], [])
  | c :: cs =>
    if c.tag == name then
      let r := f c
      (r.1 :: cs, r.2)
    else
      let r := replaceFirstChildD name f cs
      (c :: r.1, r.2)

/-- `get_child_or_create` (source lines 11-19) composed with the in-place
mutation the caller performs on the returned handle: apply `f` to the first
child with the given tag, appending a fresh empty child first when none
exists. -/
def get_child_or_create (out : XNode) (name : String)
    (f : XNode → XNode × List Diag) : XNode × List Diag :=
  if out.children.any (fun c => c.tag == name) then
    let r := replaceFirstChildD name f out.children
    (.mk out.tag out.attrs r.1, r.2)
  else
    let r := f (.mk name [] [])
    (.mk out.tag out.attrs (out.children ++ [r.1]), r.2)

/-- `merge_mujoco_option` (source lines 77-86). -/
def merge_mujoco_option (fileIn : String) (inN out : XNode) : XNode × List Diag :=
  let r1 := merge_mujoco_node "option" fileIn inN out []
  match findChild inN "flag" with
  | none => r1
  | some flag =>
    let r2 := get_child_or_create r1.1 "flag"
      (fun fo => merge_mujoco_node "option/flag" fileIn flag fo [])
    (r2.1, r1.2 ++ r2.2)

/-- `add_prefix` (source lines 88-95): replace the attribute's value with
`"{robot}_{value}"` when the attribute is present. -/
def add_pfx (pfx : String) (n : XNode) (a : String) : XNode :=
  match getAttr n a with
  | none => n
  | some v => setAttr n a (pfx ++ "_" ++ v)

mutual

/-- `add_prefix_recursively` (source lines 97-109): apply `add_prefix` for
each listed attribute on the node, then recurse into every child. -/
def add_pfx_recursively (pfx : String) (attrs : List String) : XNode → XNode
  | .mk t a cs =>
    let n1 := attrs.foldl (add_pfx pfx) (XNode.mk t a cs)
    .mk n1.tag n1.attrs (add_pfx_rec_list pfx attrs cs)

def add_pfx_rec_list (pfx : String) (attrs : List String) : List XNode → List XNode
  | [] => []
  | c :: cs => add_pfx_recursively pfx attrs c :: add_pfx_rec_list pfx attrs cs

end

/-- `merge_mujoco_default` (source lines 111-129). -/
def merge_mujoco_default (fileIn : String) (inN out : XNode) (robot : String) :
    XNode × List Diag :=
  inN.children.foldl
    (fun acc c =>
      if c.tag == "default" then
        (XNode.mk acc.1.tag acc.1.attrs
          (acc.1.children ++
            [add_pfx_recursively robot ["class", "material", "hfield", "mesh", "target"] c]),
         acc.2)
      else
        let r := get_child_or_create acc.1 c.tag
          (fun co => merge_mujoco_node ("default/" ++ c.tag) fileIn c co [])
        (r.1, acc.2 ++ r.2))
    (out, [])

/-- `merge_mujoco_visual` (source lines 131-138). -/
def merge_mujoco_visual (fileIn : String) (inN out : XNode) : XNode × List Diag :=
  inN.children.foldl
    (fun acc c =>
      let r := get_child_or_create acc.1 c.tag
        (fun co => merge_mujoco_node ("visual/" ++ c.tag) fileIn c co [])
      (r.1, acc.2 ++ r.2))
    (out, [])

/-- `copy_and_add_prefix` (source lines 140-154). -/
def copy_and_add_pfx (inN out : XNode) (name : String) (pfx : String)
    (attrs : List String) : XNode :=
  .mk out.tag out.attrs
    (out.children ++
      (inN.children.filter (fun c => c.tag == name)).map
        (fun c => attrs.foldl (add_pfx pfx) c))

/-- The `update_file` lambda of `merge_mujoco_asset` (source lines 163-173):
rewrite a relative `file` attribute to `bfs::absolute(dir / file)`. -/
def update_file (cwd dir : BPath) (n : XNode) : XNode :=
  match getAttr n "file" with
  | none => n
  | some v =>
    if (parsePath v).abs then n
    else setAttr n "file" (pathStr (pabsolute cwd (pjoin dir (parsePath v))))

/-- The skin-bone loop of `merge_mujoco_asset` (source lines 192-195). -/
def pfxSkinBones (robot : String) (n : XNode) : XNode :=
  .mk n.tag n.attrs
    (n.children.map (fun b => if b.tag == "bone" then add_pfx robot b "body" else b))

/-- `merge_mujoco_asset` (source lines 156-205): deep-copy each
hfield/skin/material/texture/mesh child in that order, renaming `name`
everywhere, resolving `file` for skin/texture/mesh, prefixing skin bone
bodies and material texture references. -/
def merge_mujoco_asset (cwd : BPath) (inN out : XNode)
    (meshPath texturePath : BPath) (robot : String) : XNode :=
  let update_name := fun (n : XNode) => add_pfx robot n "name"
  let hfs := (inN.children.filter (fun c => c.tag == "hfield")).map update_name
  let skins := (inN.children.filter (fun c => c.tag == "skin")).map
    (fun s => pfxSkinBones robot (update_file cwd meshPath (update_name s)))
  let mats := (inN.children.filter (fun c => c.tag == "material")).map
    (fun m => add_pfx robot (update_name m) "texture")
  let texs := (inN.children.filter (fun c => c.tag == "texture")).map
    (fun n => update_file cwd texturePath (update_name n))
  let meshes := (inN.children.filter (fun c => c.tag == "mesh")).map
    (fun n => update_file cwd meshPath (update_name n))
  .mk out.tag out.attrs (out.children ++ hfs ++ skins ++ mats ++ texs ++ meshes)

/-- `merge_mujoco_contact` (source lines 207-211). -/
def merge_mujoco_contact (inN out : XNode) (robot : String) : XNode :=
  copy_and_add_pfx inN
    (copy_and_add_pfx inN out "pair" robot ["name", "class", "geom1", "geom2"])
    "exclude" robot ["name", "body1", "body2"]

/-- `merge_mujoco_actuator` (source lines 213-223). -/
def merge_mujoco_actuator (inN out : XNode) (robot : String) : XNode :=
  .mk out.tag out.attrs
    (out.children ++
      inN.children.map
        (fun c =>
          ["name", "class", "joint", "jointinparent", "site", "tendon",
           "cranksite", "slidersite"].foldl (add_pfx robot) c))

/-- `merge_mujoco_sensor` (source lines 225-235). -/
def merge_mujoco_sensor (inN out : XNode) (robot : String) : XNode :=
  .mk out.tag out.attrs
    (out.children ++
      inN.children.map
        (fun c =>
          ["name", "site", "joint", "actuator", "tendon", "objname",
           "body"].foldl (add_pfx robot) c))

/-- `merge_mujoco_worldbody` (source lines 237-244).  Note: the source's
attribute list literally contains the misspelling "childclasss". -/
def merge_mujoco_worldbody (inN out : XNode) (robot : String) : XNode :=
  .mk out.tag out.attrs
    (out.children ++
      inN.children.map
        (add_pfx_recursively robot
          ["name", "childclasss", "class", "material", "hfield", "mesh", "target"]))

/-- `get_mujoco_path` (source lines 246-263). -/
def get_mujoco_path (cwd : BPath) (xmlFile : String) (root : XNode)
    (attr : String) : BPath :=
  let xmlPath := pparent (parsePath xmlFile)
  match getAttr (childOrEmpty root "compiler") attr with
  | none => xmlPath
  | some v =>
    let dir := parsePath v
    if dir.abs then dir else pabsolute cwd (pjoin xmlPath dir)

/-- The two fatal errors raised by `merge_mujoco_model`. -/
inductive MergeErr : Type where
  | loadFailed : String → MergeErr
  | noMujocoRoot : String → MergeErr
deriving DecidableEq, Repr

/-- `merge_mujoco_model` (source lines 265-330): load and check the source
document, then run the nine section mergers (worldbody last) against the
shared output root.  `fs` stands for the filesystem/parser. -/
def merge_mujoco_model (fs : String → Option XNode) (cwd : BPath)
    (robot xmlFile : String) (out : XNode) : Except MergeErr (XNode × List Diag) :=
  match fs xmlFile with
  | none => .error (.loadFailed xmlFile)
  | some doc =>
    match findChild doc "mujoco" with
    | none => .error (.noMujocoRoot xmlFile)
    | some root =>
      let s1 := get_child_or_create out "compiler"
        (fun c => merge_mujoco_compiler xmlFile (childOrEmpty root "compiler") c)
      let s2 := get_child_or_create s1.1 "size"
        (fun c => (merge_mujoco_size (childOrEmpty root "size") c, []))
      let s3 := get_child_or_create s2.1 "option"
        (fun c => merge_mujoco_option xmlFile (childOrEmpty root "option") c)
      let s4 := get_child_or_create s3.1 "default"
        (fun c => merge_mujoco_default xmlFile (childOrEmpty root "default") c robot)
      let s5 := get_child_or_create s4.1 "visual"
        (fun c => merge_mujoco_visual xmlFile (childOrEmpty root "visual") c)
      let meshPath := get_mujoco_path cwd xmlFile root "meshdir"
      let texturePath := get_mujoco_path cwd xmlFile root "texturedir"
      let s6 := get_child_or_create s5.1 "asset"
        (fun c => (merge_mujoco_asset cwd (childOrEmpty root "asset") c meshPath texturePath robot, []))
      let s7 := get_child_or_create s6.1 "contact"
        (fun c => (merge_mujoco_contact (childOrEmpty root "contact") c robot, []))
      let s8 := get_child_or_create s7.1 "actuator"
        (fun c => (merge_mujoco_actuator (childOrEmpty root "actuator") c robot, []))
      let s9 := get_child_or_create s8.1 "sensor"
        (fun c => (merge_mujoco_sensor (childOrEmpty root "sensor") c robot, []))
      let s10 := get_child_or_create s9.1 "worldbody"
        (fun c => (merge_mujoco_worldbody (childOrEmpty root "worldbody") c robot, []))
      .ok (s10.1, s1.2 ++ s3.2 ++ s4.2 ++ s5.2)

/-- The entity loop of `merge_mujoco_models` (source lines 342-345); the two
input lists are iterated in lockstep (they have equal length per the caller
contract), so they are zipped. -/
def mergeAll (fs : String → Option XNode) (cwd : BPath) :
    List (String × String) → XNode × List Diag → Except MergeErr (XNode × List Diag)
  | [], acc => .ok acc
  | p :: ps, acc =>
    match merge_mujoco_model fs cwd p.1 p.2 acc.1 with
    | .error e => .error e
    | .ok r => mergeAll fs cwd ps (r.1, acc.2 ++ r.2)

/-- `merge_mujoco_models` (source lines 332-351).  The result carries the
returned path and, as an `Option XNode`, the document written to
`/tmp/mc_mujoco.xml` (`none` when the single-file shortcut writes nothing). -/
def merge_mujoco_models (fs : String → Option XNode) (cwd : BPath)
    (robots xmlFiles : List String) : Except MergeErr (String × Option XNode) :=
  if xmlFiles.length = 1 then .ok (xmlFiles.headD "", none)
  else
    match mergeAll fs cwd (robots.zip xmlFiles)
        (.mk "mujoco" [("model", "mc_mujoco")] [], []) with
    | .error e => .error e
    | .ok r => .ok ("/tmp/mc_mujoco.xml", some r.1)


/-! ## Basic lemmas about attribute access -/

theorem tag_mk (t : String) (a : List (String × String)) (c : List XNode) :
    (XNode.mk t a c).tag = t := rfl

theorem tag_setAttr (n : XNode) (a v : String) : (setAttr n a v).tag = n.tag := rfl

theorem tag_appendAttr (n : XNode) (a v : String) : (appendAttr n a v).tag = n.tag := rfl

theorem children_setAttr (n : XNode) (a v : String) :
    (setAttr n a v).children = n.children := rfl

theorem children_appendAttr (n : XNode) (a v : String) :
    (appendAttr n a v).children = n.children := rfl

theorem attrs_setAttr (n : XNode) (a v : String) :
    (setAttr n a v).attrs = setAttrList n.attrs a v := rfl

theorem attrs_appendAttr (n : XNode) (a v : String) :
    (appendAttr n a v).attrs = n.attrs ++ [(a, v)] := rfl

theorem find?_setAttrList_ne (a v b : String) (h : b ≠ a) :
    ∀ l : List (String × String),
      (setAttrList l a v).find? (fun p => p.1 == b) = l.find? (fun p => p.1 == b)
  | [] => rfl
  | p :: ps => by
    cases hpa : p.1 == a with
    | true =>
      have hp1 : p.1 = a := by simpa using hpa
      have hab : (p.1 == b) = false := by simp [hp1, Ne.symm h]
      simp only [setAttrList]
      rw [if_pos hpa]
      simp only [List.find?_cons, hab]
    | false =>
      simp only [setAttrList]
      rw [if_neg (by simp [hpa])]
      simp only [List.find?_cons]
      cases hpb : p.1 == b with
      | true => rfl
      | false => exact find?_setAttrList_ne a v b h ps

theorem getAttr_setAttr_ne (n : XNode) (a v b : String) (h : b ≠ a) :
    getAttr (setAttr n a v) b = getAttr n b := by
  simp only [getAttr, attrs_setAttr]
  rw [find?_setAttrList_ne a v b h]

theorem find?_setAttrList_self (a v : String) :
    ∀ l : List (String × String),
      (l.find? (fun p => p.1 == a)).isSome = true →
      (setAttrList l a v).find? (fun p => p.1 == a) = some (a, v)
  | [], h => by simp [List.find?] at h
  | p :: ps, h => by
    cases hpa : p.1 == a with
    | true =>
      have hp1 : p.1 = a := by simpa using hpa
      simp only [setAttrList]
      rw [if_pos hpa]
      simp [List.find?_cons, hpa, hp1]
    | false =>
      simp only [setAttrList]
      rw [if_neg (by simp [hpa])]
      simp only [List.find?_cons, hpa]
      simp only [List.find?_cons, hpa] at h
      exact find?_setAttrList_self a v ps h

theorem getAttr_isSome_find? (n : XNode) (a w : String) (h : getAttr n a = some w) :
    (n.attrs.find? (fun p => p.1 == a)).isSome = true := by
  simp only [getAttr] at h
  cases hf : n.attrs.find? (fun p => p.1 == a) <;> simp [hf] at h ⊢

theorem getAttr_setAttr_self (n : XNode) (a v w : String) (h : getAttr n a = some w) :
    getAttr (setAttr n a v) a = some v := by
  simp only [getAttr, attrs_setAttr]
  rw [find?_setAttrList_self a v n.attrs (getAttr_isSome_find? n a w h)]
  rfl

theorem getAttr_appendAttr_ne (n : XNode) (a v b : String) (h : b ≠ a) :
    getAttr (appendAttr n a v) b = getAttr n b := by
  have hab : (a == b) = false := by simp [Ne.symm h]
  simp only [getAttr, attrs_appendAttr, List.find?_append, List.find?_cons, hab,
    List.find?_nil, Option.or_none]

theorem getAttr_none_find? (n : XNode) (a : String) (h : getAttr n a = none) :
    n.attrs.find? (fun p => p.1 == a) = none := by
  simp only [getAttr] at h
  cases hf : n.attrs.find? (fun p => p.1 == a) <;> simp [hf] at h ⊢

theorem getAttr_appendAttr_self (n : XNode) (a v : String) (h : getAttr n a = none) :
    getAttr (appendAttr n a v) a = some v := by
  simp only [getAttr, attrs_appendAttr, List.find?_append]
  rw [getAttr_none_find? n a h]
  simp [List.find?]

theorem tag_add_pfx (pfx : String) (n : XNode) (a : String) :
    (add_pfx pfx n a).tag = n.tag := by
  unfold add_pfx
  cases getAttr n a <;> rfl

theorem children_add_pfx (pfx : String) (n : XNode) (a : String) :
    (add_pfx pfx n a).children = n.children := by
  unfold add_pfx
  cases getAttr n a <;> rfl

theorem getAttr_add_pfx_ne (pfx : String) (n : XNode) (a b : String) (h : b ≠ a) :
    getAttr (add_pfx pfx n a) b = getAttr n b := by
  unfold add_pfx
  cases getAttr n a with
  | none => rfl
  | some v => exact getAttr_setAttr_ne n a _ b h

theorem tag_foldl_add_pfx (pfx : String) (attrs : List String) (n : XNode) :
    (attrs.foldl (add_pfx pfx) n).tag = n.tag := by
  induction attrs generalizing n with
  | nil => rfl
  | cons a as ih => rw [List.foldl_cons, ih, tag_add_pfx]

theorem getAttr_foldl_add_pfx_notmem (pfx : String) (attrs : List String) (n : XNode)
    (b : String) (h : b ∉ attrs) :
    getAttr (attrs.foldl (add_pfx pfx) n) b = getAttr n b := by
  induction attrs generalizing n with
  | nil => rfl
  | cons a as ih =>
    rw [List.foldl_cons, ih _ (fun hb => h (List.mem_cons_of_mem a hb)),
      getAttr_add_pfx_ne pfx n a b (fun hb => h (hb ▸ List.mem_cons_self a as))]


/-! ## Round trip: `asInt` after `intToDec` -/

theorem natToDecAux_append (fuel : Nat) : ∀ (n : Nat) (acc : List Char),
    natToDecAux fuel n acc = natToDecAux fuel n [] ++ acc := by
  induction fuel with
  | zero => intro n acc; rfl
  | succ f ih =>
    intro n acc
    by_cases hn : n = 0
    · simp [natToDecAux, hn]
    · simp only [natToDecAux, if_neg hn]
      rw [ih (n / 10) (Char.ofNat (48 + n % 10) :: acc),
        ih (n / 10) [Char.ofNat (48 + n % 10)]]
      simp

theorem digitChar_isDigit (m : Nat) (h : m < 10) :
    (Char.ofNat (48 + m)).isDigit = true := by
  interval_cases m <;> decide

theorem digitVal_digitChar (m : Nat) (h : m < 10) :
    digitVal (Char.ofNat (48 + m)) = m := by
  interval_cases m <;> decide

theorem digitsVal_append_singleton (cs : List Char) (c : Char) :
    digitsVal (cs ++ [c]) = 10 * digitsVal cs + digitVal c := by
  simp only [digitsVal, List.foldl_append, List.foldl_cons, List.foldl_nil]
  omega

theorem natToDecAux_spec (fuel : Nat) : ∀ n, n ≤ fuel →
    digitsVal (natToDecAux fuel n []) = n ∧
      ∀ c ∈ natToDecAux fuel n [], c.isDigit = true := by
  induction fuel with
  | zero =>
    intro n hn
    interval_cases n
    exact ⟨rfl, by simp [natToDecAux]⟩
  | succ f ih =>
    intro n hn
    by_cases h0 : n = 0
    · subst h0
      exact ⟨rfl, by simp [natToDecAux]⟩
    · simp only [natToDecAux, if_neg h0]
      rw [natToDecAux_append]
      have hdiv : n / 10 ≤ f := by omega
      obtain ⟨ih1, ih2⟩ := ih (n / 10) hdiv
      have hmod : n % 10 < 10 := Nat.mod_lt _ (by norm_num)
      refine ⟨?_, ?_⟩
      · rw [digitsVal_append_singleton, ih1, digitVal_digitChar (n % 10) hmod]
        omega
      · intro c hc
        rcases List.mem_append.mp hc with hc | hc
        · exact ih2 c hc
        · have : c = Char.ofNat (48 + n % 10) := by simpa using hc
          rw [this]
          exact digitChar_isDigit _ hmod

theorem digitsVal_natToDec (n : Nat) : digitsVal (natToDec n) = n := by
  by_cases h0 : n = 0
  · subst h0; rfl
  · simp only [natToDec, if_neg h0]
    exact (natToDecAux_spec n n le_rfl).1

theorem natToDec_digits (n : Nat) : ∀ c ∈ natToDec n, c.isDigit = true := by
  by_cases h0 : n = 0
  · subst h0; simp [natToDec]
  · simp only [natToDec, if_neg h0]
    exact (natToDecAux_spec n n le_rfl).2

theorem natToDec_ne_nil (n : Nat) : natToDec n ≠ [] := by
  by_cases h0 : n = 0
  · subst h0; simp [natToDec]
  · simp only [natToDec, if_neg h0]
    cases hn : n with
    | zero => exact absurd hn h0
    | succ m =>
      simp only [natToDecAux, if_neg h0]
      rw [natToDecAux_append]
      simp

theorem isDigit_not_space (c : Char) (h : c.isDigit = true) : isSpaceChar c = false := by
  simp only [isSpaceChar, Bool.or_eq_false_iff, beq_eq_false_iff_ne]
  refine ⟨⟨⟨⟨⟨?_, ?_⟩, ?_⟩, ?_⟩, ?_⟩, ?_⟩ <;> rintro rfl <;> exact absurd h (by decide)

theorem isDigit_ne_minus (c : Char) (h : c.isDigit = true) : (c == '-') = false := by
  simp only [beq_eq_false_iff_ne]
  rintro rfl; exact absurd h (by decide)

theorem isDigit_ne_plus (c : Char) (h : c.isDigit = true) : (c == '+') = false := by
  simp only [beq_eq_false_iff_ne]
  rintro rfl; exact absurd h (by decide)

theorem asInt_intToDec (i : Int) : asInt (intToDec i) = i := by
  by_cases hi : i < 0
  · have h1 : intToDec i = String.mk ('-' :: natToDec i.natAbs) := if_pos hi
    rw [h1]
    show asIntChars ('-' :: natToDec i.natAbs) = i
    have hdw : (('-' :: natToDec i.natAbs).dropWhile isSpaceChar)
        = '-' :: natToDec i.natAbs := by
      rw [List.dropWhile_cons_of_neg (by decide)]
    have htw : ((natToDec i.natAbs).takeWhile Char.isDigit) = natToDec i.natAbs :=
      List.takeWhile_eq_self_iff.mpr (natToDec_digits _)
    simp only [asIntChars, hdw]
    rw [if_pos (show (('-' : Char) == '-') = true from rfl), htw, digitsVal_natToDec]
    omega
  · have h1 : intToDec i = String.mk (natToDec i.toNat) := if_neg hi
    rw [h1]
    show asIntChars (natToDec i.toNat) = i
    cases hn : natToDec i.toNat with
    | nil => exact absurd hn (natToDec_ne_nil _)
    | cons c rest =>
      have hall : ∀ x ∈ c :: rest, x.isDigit = true := by
        rw [← hn]; exact natToDec_digits _
      have hd : c.isDigit = true := hall c (List.mem_cons_self c rest)
      have hdw : ((c :: rest).dropWhile isSpaceChar) = c :: rest :=
        List.dropWhile_cons_of_neg (by simp [isDigit_not_space c hd])
      have htw : ((c :: rest).takeWhile Char.isDigit) = c :: rest :=
        List.takeWhile_eq_self_iff.mpr hall
      simp only [asIntChars, hdw, isDigit_ne_minus c hd, isDigit_ne_plus c hd,
        Bool.false_eq_true, if_false]
      rw [htw, show digitsVal (c :: rest) = digitsVal (natToDec i.toNat) from hn ▸ rfl,
        digitsVal_natToDec]
      omega


/-! ## Path and asset-resolution lemmas -/

theorem children_mk (t : String) (a : List (String × String)) (c : List XNode) :
    (XNode.mk t a c).children = c := rfl

theorem attrs_mk (t : String) (a : List (String × String)) (c : List XNode) :
    (XNode.mk t a c).attrs = a := rfl

theorem pjoin_abs (p q : BPath) : (pjoin p q).abs = p.abs := rfl

theorem pabsolute_abs (cwd p : BPath) (h : cwd.abs = true) :
    (pabsolute cwd p).abs = true := by
  unfold pabsolute
  by_cases hp : p.abs = true
  · rw [if_pos hp]; exact hp
  · rw [if_neg hp]; exact h

theorem isAbsStr_pathStr (p : BPath) (h : p.abs = true) :
    isAbsStr (pathStr p) = true := by
  unfold pathStr
  rw [if_pos h]
  unfold isAbsStr
  rw [String.data_append]
  rfl

theorem parsePath_abs (s : String) : (parsePath s).abs = isAbsStr s := rfl

theorem tag_update_file (cwd dir : BPath) (n : XNode) :
    (update_file cwd dir n).tag = n.tag := by
  unfold update_file
  cases getAttr n "file" with
  | none => rfl
  | some v =>
    dsimp only
    by_cases h : (parsePath v).abs = true
    · rw [if_pos h]
    · rw [if_neg h]; exact tag_setAttr ..

theorem tag_pfxSkinBones (robot : String) (n : XNode) :
    (pfxSkinBones robot n).tag = n.tag := rfl

theorem getAttr_pfxSkinBones (robot : String) (n : XNode) (a : String) :
    getAttr (pfxSkinBones robot n) a = getAttr n a := rfl

/-- After `update_file`, a present `file` attribute is an absolute path
(provided the working directory is absolute, as `bfs::current_path` is). -/
theorem fileResolved_update_file (cwd dir : BPath) (hcwd : cwd.abs = true)
    (n : XNode) : ∀ v, getAttr (update_file cwd dir n) "file" = some v →
      isAbsStr v = true := by
  intro v hv
  unfold update_file at hv
  cases hg : getAttr n "file" with
  | none =>
    rw [hg] at hv
    dsimp only at hv
    rw [hg] at hv
    exact Option.noConfusion hv
  | some w =>
    rw [hg] at hv
    dsimp only at hv
    by_cases hw : (parsePath w).abs = true
    · rw [if_pos hw] at hv
      rw [hg] at hv
      obtain rfl : w = v := Option.some_inj.mp hv
      exact hw
    · rw [if_neg hw] at hv
      rw [getAttr_setAttr_self n "file" _ w hg] at hv
      obtain rfl := Option.some_inj.mp hv
      exact isAbsStr_pathStr _ (pabsolute_abs _ _ hcwd)

/-! ## Claim theorems: C1, C2, C3, C10 -/

/-- Claim C1 (status: code_bug).  The claim says every attribute among
name, childclass, class, material, hfield, mesh, target inside a copied
worldbody subtree is prefixed with the entity identifier.  The source's
attribute list at line 242 contains the misspelling "childclasss", so a
genuine `childclass` attribute is copied unchanged: for robot "r1" and a
body with `childclass="base"`, the merged body keeps `childclass="base"`
(the claim requires "r1_base"), while `name` attributes are prefixed as
claimed (`r1_arm`, `r1_j1`, `r1_g1`). -/
theorem C1_worldbody_childclass_not_renamed :
    merge_mujoco_worldbody
      (.mk "worldbody" []
        [.mk "body" [("name", "arm"), ("childclass", "base")]
          [.mk "joint" [("name", "j1")] [], .mk "geom" [("name", "g1")] []]])
      (.mk "worldbody" [] []) "r1"
    = .mk "worldbody" []
        [.mk "body" [("name", "r1_arm"), ("childclass", "base")]
          [.mk "joint" [("name", "r1_j1")] [], .mk "geom" [("name", "r1_g1")] []]] := rfl

/-- Claim C2, counterexample.  The claim says every asset node among
hfield, skin, material, texture, mesh with a `file` attribute ends up with
an absolute path.  `merge_mujoco_asset` copies `hfield` children with only
a name update (source lines 174-178), so a relative hfield file survives
relative. -/
theorem C2_hfield_file_left_relative :
    merge_mujoco_asset ⟨true, []⟩
      (.mk "asset" [] [.mk "hfield" [("name", "h"), ("file", "terrain.png")] []])
      (.mk "asset" [] []) ⟨true, ["m"]⟩ ⟨true, ["t"]⟩ "r1"
    = .mk "asset" [] [.mk "hfield" [("name", "r1_h"), ("file", "terrain.png")] []]
    ∧ isAbsStr "terrain.png" = false := ⟨rfl, rfl⟩

/-- Claim C2, amended: after merging an asset section, every skin, texture
or mesh child of the output that carries a `file` attribute carries an
absolute path (hfield files are copied unchanged and material nodes get no
file handling); relative values are resolved against the given base
directory and absolute values are kept. -/
theorem C2_resolved_asset_files_absolute (cwd : BPath) (hcwd : cwd.abs = true)
    (inN out : XNode) (mp tp : BPath) (robot : String)
    (hout : ∀ c ∈ out.children, c.tag ∈ (["skin", "texture", "mesh"] : List String) →
      ∀ v, getAttr c "file" = some v → isAbsStr v = true) :
    ∀ c ∈ (merge_mujoco_asset cwd inN out mp tp robot).children,
      c.tag ∈ (["skin", "texture", "mesh"] : List String) →
      ∀ v, getAttr c "file" = some v → isAbsStr v = true := by
  intro c hc htag v hv
  simp only [merge_mujoco_asset, children_mk] at hc
  rcases List.mem_append.mp hc with hc | hmesh
  rcases List.mem_append.mp hc with hc | htex
  rcases List.mem_append.mp hc with hc | hmat
  rcases List.mem_append.mp hc with hc | hskin
  rcases List.mem_append.mp hc with hold | hhf
  · exact hout c hold htag v hv
  · obtain ⟨hf, hmem, rfl⟩ := List.mem_map.mp hhf
    have : hf.tag = "hfield" := by simpa using (List.mem_filter.mp hmem).2
    rw [tag_add_pfx, this] at htag
    simp at htag
  · obtain ⟨s, hmem, rfl⟩ := List.mem_map.mp hskin
    rw [getAttr_pfxSkinBones] at hv
    exact fileResolved_update_file cwd mp hcwd _ v hv
  · obtain ⟨m, hmem, rfl⟩ := List.mem_map.mp hmat
    have : m.tag = "material" := by simpa using (List.mem_filter.mp hmem).2
    rw [tag_add_pfx, tag_add_pfx, this] at htag
    simp at htag
  · obtain ⟨n, hmem, rfl⟩ := List.mem_map.mp htex
    exact fileResolved_update_file cwd tp hcwd _ v hv
  · obtain ⟨n, hmem, rfl⟩ := List.mem_map.mp hmesh
    exact fileResolved_update_file cwd mp hcwd _ v hv

/-- Witness for C2's amended theorem: a mesh with relative `file="link.stl"`
and base directory `/m` ends up with the absolute path `/m/link.stl`. -/
theorem C2_resolved_asset_files_absolute_witness : isAbsStr "/m/link.stl" = true := by
  have h := C2_resolved_asset_files_absolute ⟨true, []⟩ rfl
    (.mk "asset" [] [.mk "mesh" [("name", "m1"), ("file", "link.stl")] []])
    (.mk "asset" [] []) ⟨true, ["m"]⟩ ⟨true, ["t"]⟩ "r1"
    (fun c hc => absurd hc (List.not_mem_nil c))
  exact h (.mk "mesh" [("name", "r1_m1"), ("file", "/m/link.stl")] [])
    (List.mem_singleton_self _) (by decide) "/m/link.stl" rfl

/-- Claim C3: a call with exactly one input file path returns that path and
writes no output file, whatever the robots list, the filesystem and the
working directory are. -/
theorem C3_single_input_returns_path_unchanged (fs : String → Option XNode)
    (cwd : BPath) (robots : List String) (f : String) :
    merge_mujoco_models fs cwd robots [f] = .ok (f, none) := rfl

/-- Claim C10: with empty input lists the merge succeeds, writes a document
holding only the fixed root node with `model="mc_mujoco"` and no section
children, and returns the fixed output path. -/
theorem C10_empty_merge_writes_bare_root (fs : String → Option XNode) (cwd : BPath) :
    merge_mujoco_models fs cwd [] []
    = .ok ("/tmp/mc_mujoco.xml", some (.mk "mujoco" [("model", "mc_mujoco")] [])) := rfl


/-! ## Size-counter merging (C4) -/

theorem getAttr_mergeSizeAttr_ne (inN out : XNode) (a b : String) (h : b ≠ a) :
    getAttr (mergeSizeAttr inN out a) b = getAttr out b := by
  unfold mergeSizeAttr
  cases getAttr inN a with
  | none => rfl
  | some v =>
    dsimp only
    cases getAttr out a with
    | some w => exact getAttr_setAttr_ne out a _ b h
    | none => exact getAttr_appendAttr_ne out a _ b h

theorem getAttr_mergeSizeAttr_self (inN out : XNode) (a : String) :
    getAttr (mergeSizeAttr inN out a) a =
      match getAttr inN a, getAttr out a with
      | none, w? => w?
      | some v, none => some v
      | some v, some w => some (intToDec (asInt w + asInt v)) := by
  unfold mergeSizeAttr
  cases hin : getAttr inN a with
  | none => rfl
  | some v =>
    dsimp only
    cases hout : getAttr out a with
    | some w => exact getAttr_setAttr_self out a _ w hout
    | none => exact getAttr_appendAttr_self out a v hout

theorem getAttr_mergeSizeAttr_congr (inN o1 o2 : XNode) (a : String)
    (h : getAttr o1 a = getAttr o2 a) :
    getAttr (mergeSizeAttr inN o1 a) a = getAttr (mergeSizeAttr inN o2 a) a := by
  rw [getAttr_mergeSizeAttr_self, getAttr_mergeSizeAttr_self, h]

theorem getAttr_foldl_mergeSizeAttr_notmem (inN : XNode) (l : List String)
    (out : XNode) (a : String) (h : a ∉ l) :
    getAttr (l.foldl (mergeSizeAttr inN) out) a = getAttr out a := by
  induction l generalizing out with
  | nil => rfl
  | cons b bs ih =>
    rw [List.foldl_cons, ih _ (fun hb => h (List.mem_cons_of_mem b hb)),
      getAttr_mergeSizeAttr_ne inN out b a (fun hb => h (hb ▸ List.mem_cons_self b bs))]

theorem getAttr_foldl_mergeSizeAttr_mem (inN : XNode) (l : List String)
    (out : XNode) (a : String) (ha : a ∈ l) (hnd : l.Nodup) :
    getAttr (l.foldl (mergeSizeAttr inN) out) a = getAttr (mergeSizeAttr inN out a) a := by
  induction l generalizing out with
  | nil => cases ha
  | cons b bs ih =>
    rw [List.foldl_cons]
    by_cases hab : a = b
    · subst hab
      exact getAttr_foldl_mergeSizeAttr_notmem inN bs _ a (List.nodup_cons.mp hnd).1
    · have hmem : a ∈ bs := by
        rcases List.mem_cons.mp ha with h | h
        · exact absurd h hab
        · exact h
      rw [ih _ hmem (List.nodup_cons.mp hnd).2]
      exact getAttr_mergeSizeAttr_congr inN _ out a
        (getAttr_mergeSizeAttr_ne inN out b a hab)

/-- Claim C4: for every counter in the fixed size list, `merge_mujoco_size`
copies the source value when the counter is absent on the output node, and
replaces it by the decimal rendering of the integer sum of the two parsed
values when present on both. -/
theorem C4_size_counters_copy_or_sum (inN out : XNode) (a : String)
    (ha : a ∈ sizeAttributes) :
    (getAttr out a = none → getAttr (merge_mujoco_size inN out) a = getAttr inN a) ∧
    (∀ v w, getAttr inN a = some v → getAttr out a = some w →
      getAttr (merge_mujoco_size inN out) a = some (intToDec (asInt w + asInt v))) := by
  have hkey : getAttr (merge_mujoco_size inN out) a
      = getAttr (mergeSizeAttr inN out a) a :=
    getAttr_foldl_mergeSizeAttr_mem inN sizeAttributes out a ha (by decide)
  constructor
  · intro hout
    rw [hkey, getAttr_mergeSizeAttr_self, hout]
    cases hin : getAttr inN a <;> rfl
  · intro v w hin hout
    rw [hkey, getAttr_mergeSizeAttr_self, hin, hout]

/-- Witness for C4: `njmax="10"` merged onto `njmax="5"` yields
`njmax="15"`. -/
theorem C4_size_counters_copy_or_sum_witness :
    getAttr (merge_mujoco_size (.mk "size" [("njmax", "10")] [])
      (.mk "size" [("njmax", "5")] [])) "njmax" = some "15" := by
  have h := (C4_size_counters_copy_or_sum (.mk "size" [("njmax", "10")] [])
    (.mk "size" [("njmax", "5")] []) "njmax" (by decide)).2 "10" "5" rfl rfl
  exact h.trans rfl


/-! ## Generic attribute merging (C5) -/

theorem getAttr_mergeNodeStep_some (ex : List String) (nm fi : String)
    (acc : XNode × List Diag) (p : String × String) (a w : String)
    (h : getAttr acc.1 a = some w) :
    getAttr (mergeNodeStep ex nm fi acc p).1 a = some w := by
  unfold mergeNodeStep
  by_cases hex : (ex.contains p.1) = true
  · rw [if_pos hex]; exact h
  · rw [if_neg hex]
    cases hg : getAttr acc.1 p.1 with
    | none =>
      dsimp only
      by_cases hap : a = p.1
      · subst hap; rw [hg] at h; exact Option.noConfusion h
      · rw [getAttr_appendAttr_ne acc.1 p.1 p.2 a hap]; exact h
    | some w2 =>
      dsimp only
      by_cases heq : (w2 == p.2) = true
      · rw [if_pos heq]; exact h
      · rw [if_neg heq]; exact h

theorem getAttr_mergeNodeStep_ne (ex : List String) (nm fi : String)
    (acc : XNode × List Diag) (p : String × String) (a : String) (hne : a ≠ p.1) :
    getAttr (mergeNodeStep ex nm fi acc p).1 a = getAttr acc.1 a := by
  unfold mergeNodeStep
  by_cases hex : (ex.contains p.1) = true
  · rw [if_pos hex]
  · rw [if_neg hex]
    cases hg : getAttr acc.1 p.1 with
    | none =>
      dsimp only
      exact getAttr_appendAttr_ne acc.1 p.1 p.2 a hne
    | some w2 =>
      dsimp only
      by_cases heq : (w2 == p.2) = true
      · rw [if_pos heq]
      · rw [if_neg heq]

theorem getAttr_foldl_mergeNode_some (ex : List String) (nm fi : String)
    (ps : List (String × String)) (acc : XNode × List Diag) (a w : String)
    (h : getAttr acc.1 a = some w) :
    getAttr (ps.foldl (mergeNodeStep ex nm fi) acc).1 a = some w := by
  induction ps generalizing acc with
  | nil => exact h
  | cons p ps ih =>
    rw [List.foldl_cons]
    exact ih _ (getAttr_mergeNodeStep_some ex nm fi acc p a w h)

theorem diagFilter_mergeNodeStep_ne (ex : List String) (nm fi : String)
    (acc : XNode × List Diag) (p : String × String) (a : String) (hne : p.1 ≠ a) :
    ((mergeNodeStep ex nm fi acc p).2.filter (fun d => d.attrName == a))
      = acc.2.filter (fun d => d.attrName == a) := by
  unfold mergeNodeStep
  by_cases hex : (ex.contains p.1) = true
  · rw [if_pos hex]
  · rw [if_neg hex]
    cases hg : getAttr acc.1 p.1 with
    | none => rfl
    | some w2 =>
      dsimp only
      by_cases heq : (w2 == p.2) = true
      · rw [if_pos heq]
      · rw [if_neg heq]
        dsimp only
        rw [List.filter_append]
        have : ((⟨nm, p.1, fi, p.2, w2⟩ : Diag).attrName == a) = false := by
          simp [hne]
        simp [List.filter_cons, this]

theorem diagFilter_foldl_notmem (ex : List String) (nm fi : String)
    (ps : List (String × String)) (acc : XNode × List Diag) (a : String)
    (h : ∀ p ∈ ps, p.1 ≠ a) :
    ((ps.foldl (mergeNodeStep ex nm fi) acc).2.filter (fun d => d.attrName == a))
      = acc.2.filter (fun d => d.attrName == a) := by
  induction ps generalizing acc with
  | nil => rfl
  | cons p ps ih =>
    rw [List.foldl_cons, ih _ (fun q hq => h q (List.mem_cons_of_mem p hq)),
      diagFilter_mergeNodeStep_ne ex nm fi acc p a (h p (List.mem_cons_self p ps))]

theorem getAttr_find? (n : XNode) (a v : String) (h : getAttr n a = some v) :
    n.attrs.find? (fun p => p.1 == a) = some (a, v) := by
  simp only [getAttr] at h
  cases hf : n.attrs.find? (fun p => p.1 == a) with
  | none => rw [hf] at h; exact Option.noConfusion h
  | some p =>
    rw [hf] at h
    obtain ⟨p1, p2⟩ := p
    have hp2 : p2 = v := by simpa using h
    have hp1 : p1 = a := by simpa using List.find?_some hf
    rw [hp1, hp2]

theorem mergeNode_fold_spec (ex : List String) (nm fi : String) (a v w : String)
    (hexa : a ∉ ex) :
    ∀ (ps : List (String × String)) (acc : XNode × List Diag),
      (ps.map Prod.fst).Nodup →
      ps.find? (fun p => p.1 == a) = some (a, v) →
      getAttr acc.1 a = some w →
      getAttr (ps.foldl (mergeNodeStep ex nm fi) acc).1 a = some w ∧
      ((ps.foldl (mergeNodeStep ex nm fi) acc).2.filter (fun d => d.attrName == a))
        = acc.2.filter (fun d => d.attrName == a)
          ++ (if v = w then [] else [⟨nm, a, fi, v, w⟩])
  | [], acc, _, hfind, _ => by simp [List.find?] at hfind
  | p :: ps, acc, hnd, hfind, hacc => by
    rw [List.map_cons] at hnd
    obtain ⟨hhead, htail⟩ := List.nodup_cons.mp hnd
    rw [List.foldl_cons]
    cases hpa : p.1 == a with
    | true =>
      have hp1 : p.1 = a := by simpa using hpa
      rw [List.find?_cons_of_pos ps hpa] at hfind
      have hp2 : p.2 = v := by
        have := Option.some_inj.mp hfind
        exact congrArg Prod.snd this
      have hnotin : ∀ q ∈ ps, q.1 ≠ a := by
        intro q hq hqa
        have hm : q.1 ∈ ps.map Prod.fst := List.mem_map.mpr ⟨q, hq, rfl⟩
        rw [hqa, ← hp1] at hm
        exact hhead hm
      have hstep : mergeNodeStep ex nm fi acc p
          = (if w = v then acc else (acc.1, acc.2 ++ [⟨nm, a, fi, v, w⟩])) := by
        unfold mergeNodeStep
        rw [if_neg (by simpa [hp1] using (fun hc => hexa (by simpa using hc) :
          ¬(ex.contains a) = true)), hp1, hacc]
        dsimp only
        by_cases heq : (w == v) = true
        · rw [if_pos (by simpa [hp2] using heq), if_pos (by simpa using heq)]
        · rw [if_neg (by simpa [hp2] using heq), if_neg (by simpa using heq), hp2]
      by_cases hvw : w = v
      · rw [hstep, if_pos hvw]
        refine ⟨getAttr_foldl_mergeNode_some ex nm fi ps acc a w hacc, ?_⟩
        rw [diagFilter_foldl_notmem ex nm fi ps acc a hnotin, if_pos hvw.symm,
          List.append_nil]
      · rw [hstep, if_neg hvw]
        refine ⟨getAttr_foldl_mergeNode_some ex nm fi ps _ a w hacc, ?_⟩
        rw [diagFilter_foldl_notmem ex nm fi ps _ a hnotin]
        dsimp only
        rw [List.filter_append, if_neg (fun hc => hvw hc.symm)]
        congr 1
        simp [List.filter_cons]
    | false =>
      have hp1 : p.1 ≠ a := by simpa using hpa
      rw [List.find?_cons_of_neg ps (by simp [hpa])] at hfind
      have hacc' : getAttr (mergeNodeStep ex nm fi acc p).1 a = some w := by
        rw [getAttr_mergeNodeStep_ne ex nm fi acc p a (Ne.symm hp1)]
        exact hacc
      obtain ⟨h1, h2⟩ := mergeNode_fold_spec ex nm fi a v w hexa ps
        (mergeNodeStep ex nm fi acc p) htail hfind hacc'
      refine ⟨h1, ?_⟩
      rw [h2, diagFilter_mergeNodeStep_ne ex nm fi acc p a hp1]

/-- Claim C5: when a source attribute already exists on the output node with
a different value, `merge_mujoco_node` keeps the output's first-loaded value
and emits exactly one conflict diagnostic naming the section, the
attribute, the incoming file, the losing value and the kept value; when the
values are textually equal the attribute is untouched and no diagnostic for
it is emitted.  (The no-duplicate hypothesis on the source attribute names
is pugixml's invariant: a parsed element never carries two attributes with
the same name.) -/
theorem C5_first_wins_single_diagnostic (nodeName fileIn : String) (inN out : XNode)
    (exclude : List String) (a v w : String)
    (hnd : (inN.attrs.map Prod.fst).Nodup)
    (hin : getAttr inN a = some v) (hex : a ∉ exclude)
    (hout : getAttr out a = some w) :
    getAttr (merge_mujoco_node nodeName fileIn inN out exclude).1 a = some w ∧
    (v ≠ w → (merge_mujoco_node nodeName fileIn inN out exclude).2.filter
        (fun d => d.attrName == a) = [⟨nodeName, a, fileIn, v, w⟩]) ∧
    (v = w → (merge_mujoco_node nodeName fileIn inN out exclude).2.filter
        (fun d => d.attrName == a) = []) := by
  obtain ⟨h1, h2⟩ := mergeNode_fold_spec exclude nodeName fileIn a v w hex
    inN.attrs (out, []) hnd (getAttr_find? inN a v hin) hout
  refine ⟨h1, ?_, ?_⟩
  · intro hvw
    rw [show (merge_mujoco_node nodeName fileIn inN out exclude).2
        = (inN.attrs.foldl (mergeNodeStep exclude nodeName fileIn) (out, [])).2 from rfl,
      h2, if_neg hvw]
    rfl
  · intro hvw
    rw [show (merge_mujoco_node nodeName fileIn inN out exclude).2
        = (inN.attrs.foldl (mergeNodeStep exclude nodeName fileIn) (out, [])).2 from rfl,
      h2, if_pos hvw]
    rfl

/-- Witness for C5: merging `coordinate="global"` from `b.xml` onto an
output compiler node already holding `coordinate="local"` keeps `local` and
emits the single expected diagnostic. -/
theorem C5_first_wins_single_diagnostic_witness :
    getAttr (merge_mujoco_node "compiler" "b.xml"
      (.mk "compiler" [("coordinate", "global")] [])
      (.mk "compiler" [("coordinate", "local")] []) []).1 "coordinate" = some "local" ∧
    (merge_mujoco_node "compiler" "b.xml"
      (.mk "compiler" [("coordinate", "global")] [])
      (.mk "compiler" [("coordinate", "local")] []) []).2.filter
        (fun d => d.attrName == "coordinate")
      = [⟨"compiler", "coordinate", "b.xml", "global", "local"⟩] := by
  have h := C5_first_wins_single_diagnostic "compiler" "b.xml"
    (.mk "compiler" [("coordinate", "global")] [])
    (.mk "compiler" [("coordinate", "local")] []) [] "coordinate" "global" "local"
    (by decide) rfl (by decide) rfl
  exact ⟨h.1, h.2.1 (by decide)⟩


/-! ## Base-directory resolution (C6) -/

/-- Claim C6: `get_mujoco_path` yields the source file's containing
directory when the compiler section lacks the directory attribute; the
declared directory as-is when it is absolute; and the declared directory
resolved against the source file's containing directory otherwise. -/
theorem C6_base_directory_resolution (cwd : BPath) (xmlFile : String)
    (root : XNode) (attr : String) :
    (getAttr (childOrEmpty root "compiler") attr = none →
      get_mujoco_path cwd xmlFile root attr = pparent (parsePath xmlFile)) ∧
    (∀ v, getAttr (childOrEmpty root "compiler") attr = some v →
      ((parsePath v).abs = true → get_mujoco_path cwd xmlFile root attr = parsePath v) ∧
      ((parsePath v).abs = false →
        get_mujoco_path cwd xmlFile root attr
          = pabsolute cwd (pjoin (pparent (parsePath xmlFile)) (parsePath v)))) := by
  constructor
  · intro h
    unfold get_mujoco_path
    rw [h]
  · intro v hv
    constructor
    · intro habs
      unfold get_mujoco_path
      rw [hv]
      dsimp only
      rw [if_pos habs]
    · intro habs
      unfold get_mujoco_path
      rw [hv]
      dsimp only
      rw [if_neg (by simp [habs])]

/-- Witness for C6: `meshdir="meshes"` declared by `/r/model.xml` resolves
to the absolute directory `/r/meshes`. -/
theorem C6_base_directory_resolution_witness :
    get_mujoco_path ⟨true, []⟩ "/r/model.xml"
      (.mk "mujoco" [] [.mk "compiler" [("meshdir", "meshes")] []]) "meshdir"
      = ⟨true, ["r", "meshes"]⟩ := by
  have h := ((C6_base_directory_resolution ⟨true, []⟩ "/r/model.xml"
    (.mk "mujoco" [] [.mk "compiler" [("meshdir", "meshes")] []]) "meshdir").2
    "meshes" rfl).2 rfl
  exact h.trans (by decide)

/-! ## Fatal errors abort the whole merge (C7) -/

/-- A listed file is bad when it cannot be parsed (`fs` yields nothing) or
its document lacks the `mujoco` root tag: the two fatal conditions of
`merge_mujoco_model` (source lines 267-276). -/
def isBadFile (fs : String → Option XNode) (f : String) : Bool :=
  match fs f with
  | none => true
  | some doc => (findChild doc "mujoco").isNone

/-- The error `merge_mujoco_model` raises on a bad file. -/
def errFor (fs : String → Option XNode) (f : String) : MergeErr :=
  match fs f with
  | none => .loadFailed f
  | some _ => .noMujocoRoot f

theorem merge_model_error (fs : String → Option XNode) (cwd : BPath)
    (robot f : String) (out : XNode) (h : isBadFile fs f = true) :
    merge_mujoco_model fs cwd robot f out = .error (errFor fs f) := by
  unfold merge_mujoco_model errFor
  unfold isBadFile at h
  cases hf : fs f with
  | none => rfl
  | some doc =>
    rw [hf] at h
    dsimp only at h ⊢
    cases hc : findChild doc "mujoco" with
    | none => rfl
    | some root => rw [hc] at h; simp at h

theorem merge_model_ok (fs : String → Option XNode) (cwd : BPath)
    (robot f : String) (out : XNode) (h : isBadFile fs f = false) :
    ∃ r, merge_mujoco_model fs cwd robot f out = .ok r := by
  unfold merge_mujoco_model
  unfold isBadFile at h
  cases hf : fs f with
  | none => rw [hf] at h; simp at h
  | some doc =>
    rw [hf] at h
    dsimp only at h ⊢
    cases hc : findChild doc "mujoco" with
    | none => rw [hc] at h; simp at h
    | some root => exact ⟨_, rfl⟩

theorem mergeAll_error (fs : String → Option XNode) (cwd : BPath) (b : String)
    (hb : isBadFile fs b = true) (rest : List String) :
    ∀ (gs : List String) (robots : List String) (acc : XNode × List Diag),
      (∀ g ∈ gs, isBadFile fs g = false) →
      robots.length = (gs ++ b :: rest).length →
      mergeAll fs cwd (robots.zip (gs ++ b :: rest)) acc = .error (errFor fs b)
  | [], robots, acc, _, hlen => by
    cases robots with
    | nil => simp at hlen
    | cons r rs =>
      rw [List.nil_append, List.zip_cons_cons]
      unfold mergeAll
      rw [merge_model_error fs cwd r b acc.1 hb]
  | g :: gs, robots, acc, hgs, hlen => by
    cases robots with
    | nil => simp at hlen
    | cons r rs =>
      rw [List.cons_append, List.zip_cons_cons]
      unfold mergeAll
      obtain ⟨res, hres⟩ := merge_model_ok fs cwd r g acc.1 (hgs g (List.mem_cons_self g gs))
      rw [hres]
      exact mergeAll_error fs cwd b hb rest gs rs (res.1, acc.2 ++ res.2)
        (fun x hx => hgs x (List.mem_cons_of_mem g hx)) (by simpa using hlen)

/-- Claim C7: in a multi-entity merge, as soon as some listed file cannot
be parsed or lacks the `mujoco` root, the whole merge aborts with that
file's error: all files after it are irrelevant (the error names the first
bad file), nothing is substituted, and no output document is produced (an
`error` result carries no written file). -/
theorem C7_bad_file_aborts_merge (fs : String → Option XNode) (cwd : BPath)
    (robots xmlFiles gs rest : List String) (b : String)
    (hsplit : xmlFiles = gs ++ b :: rest)
    (hgood : ∀ g ∈ gs, isBadFile fs g = false)
    (hbad : isBadFile fs b = true)
    (hlen : robots.length = xmlFiles.length)
    (hmulti : 2 ≤ xmlFiles.length) :
    merge_mujoco_models fs cwd robots xmlFiles = .error (errFor fs b) := by
  subst hsplit
  unfold merge_mujoco_models
  rw [if_neg (by omega)]
  rw [mergeAll_error fs cwd b hbad rest gs robots _ hgood hlen]

/-- Witness for C7: two files where the second cannot be loaded; the merge
aborts with `loadFailed` for that file. -/
theorem C7_bad_file_aborts_merge_witness :
    merge_mujoco_models
      (fun f => if f = "/r/a.xml" then some (.mk "doc" [] [.mk "mujoco" [] []]) else none)
      ⟨true, []⟩ ["r1", "r2"] ["/r/a.xml", "/r/b.xml"]
      = .error (.loadFailed "/r/b.xml") := by
  have h := C7_bad_file_aborts_merge
    (fun f => if f = "/r/a.xml" then some (.mk "doc" [] [.mk "mujoco" [] []]) else none)
    ⟨true, []⟩ ["r1", "r2"] ["/r/a.xml", "/r/b.xml"] ["/r/a.xml"] [] "/r/b.xml"
    rfl (fun g hg => by rw [List.mem_singleton.mp hg]; rfl) rfl rfl (by decide)
  exact h


/-! ## Tag preservation of the section mergers (towards C8) -/

theorem tag_foldl_preserve {α : Type} (f : XNode × List Diag → α → XNode × List Diag)
    (h : ∀ acc c, (f acc c).1.tag = acc.1.tag) (l : List α) (acc : XNode × List Diag) :
    (l.foldl f acc).1.tag = acc.1.tag := by
  induction l generalizing acc with
  | nil => rfl
  | cons c cs ih => rw [List.foldl_cons, ih, h]

theorem tag_mergeNodeStep (ex : List String) (nm fi : String)
    (acc : XNode × List Diag) (p : String × String) :
    (mergeNodeStep ex nm fi acc p).1.tag = acc.1.tag := by
  unfold mergeNodeStep
  by_cases hex : (ex.contains p.1) = true
  · rw [if_pos hex]
  · rw [if_neg hex]
    cases getAttr acc.1 p.1 with
    | none => exact tag_appendAttr ..
    | some w2 =>
      dsimp only
      by_cases heq : (w2 == p.2) = true
      · rw [if_pos heq]
      · rw [if_neg heq]

theorem tag_merge_mujoco_node (nm fi : String) (inN out : XNode) (ex : List String) :
    (merge_mujoco_node nm fi inN out ex).1.tag = out.tag := by
  unfold merge_mujoco_node
  exact tag_foldl_preserve _ (tag_mergeNodeStep ex nm fi) inN.attrs (out, [])

theorem tag_mergeSizeAttr (inN out : XNode) (a : String) :
    (mergeSizeAttr inN out a).tag = out.tag := by
  unfold mergeSizeAttr
  cases getAttr inN a with
  | none => rfl
  | some v =>
    dsimp only
    cases getAttr out a with
    | some w => exact tag_setAttr ..
    | none => exact tag_appendAttr ..

theorem tag_merge_mujoco_size (inN out : XNode) :
    (merge_mujoco_size inN out).tag = out.tag := by
  unfold merge_mujoco_size
  have h : ∀ (l : List String) (o : XNode), (l.foldl (mergeSizeAttr inN) o).tag = o.tag := by
    intro l
    induction l with
    | nil => intro o; rfl
    | cons a as ih => intro o; rw [List.foldl_cons, ih, tag_mergeSizeAttr]
  exact h sizeAttributes out

theorem tag_get_child_or_create (out : XNode) (name : String)
    (f : XNode → XNode × List Diag) :
    (get_child_or_create out name f).1.tag = out.tag := by
  unfold get_child_or_create
  by_cases h : (out.children.any fun c => c.tag == name) = true
  · rw [if_pos h]; rfl
  · rw [if_neg h]; rfl

theorem tag_merge_mujoco_compiler (fi : String) (inN out : XNode) :
    (merge_mujoco_compiler fi inN out).1.tag = out.tag :=
  tag_merge_mujoco_node ..

theorem tag_merge_mujoco_option (fi : String) (inN out : XNode) :
    (merge_mujoco_option fi inN out).1.tag = out.tag := by
  unfold merge_mujoco_option
  cases findChild inN "flag" with
  | none =>
    dsimp only
    exact tag_merge_mujoco_node ..
  | some flag =>
    dsimp only
    rw [tag_get_child_or_create]
    exact tag_merge_mujoco_node ..

theorem tag_merge_mujoco_default (fi : String) (inN out : XNode) (robot : String) :
    (merge_mujoco_default fi inN out robot).1.tag = out.tag := by
  unfold merge_mujoco_default
  refine tag_foldl_preserve _ (fun acc c => ?_) inN.children (out, [])
  by_cases h : (c.tag == "default") = true
  · rw [if_pos h]; rfl
  · rw [if_neg h]
    dsimp only
    exact tag_get_child_or_create ..

theorem tag_merge_mujoco_visual (fi : String) (inN out : XNode) :
    (merge_mujoco_visual fi inN out).1.tag = out.tag := by
  unfold merge_mujoco_visual
  refine tag_foldl_preserve _ (fun acc c => ?_) inN.children (out, [])
  exact tag_get_child_or_create ..

theorem tag_merge_mujoco_asset (cwd : BPath) (inN out : XNode)
    (mp tp : BPath) (robot : String) :
    (merge_mujoco_asset cwd inN out mp tp robot).tag = out.tag := rfl

theorem tag_copy_and_add_pfx (inN out : XNode) (name pfx : String)
    (attrs : List String) :
    (copy_and_add_pfx inN out name pfx attrs).tag = out.tag := rfl

theorem tag_merge_mujoco_contact (inN out : XNode) (robot : String) :
    (merge_mujoco_contact inN out robot).tag = out.tag := rfl

theorem tag_merge_mujoco_actuator (inN out : XNode) (robot : String) :
    (merge_mujoco_actuator inN out robot).tag = out.tag := rfl

theorem tag_merge_mujoco_sensor (inN out : XNode) (robot : String) :
    (merge_mujoco_sensor inN out robot).tag = out.tag := rfl

theorem tag_merge_mujoco_worldbody (inN out : XNode) (robot : String) :
    (merge_mujoco_worldbody inN out robot).tag = out.tag := rfl

/-! ## Child-tag counting through `get_child_or_create` (C8) -/

/-- Number of children of `n` whose tag is `t`. -/
def countTag (n : XNode) (t : String) : Nat := (n.children.map XNode.tag).count t

/-- The ten recognized section tags on which `merge_mujoco_model` calls
`get_child_or_create` against the output root. -/
def sectionTags : List String :=
  ["compiler", "size", "option", "default", "visual",
   "asset", "contact", "actuator", "sensor", "worldbody"]

theorem map_tag_replaceFirstChildD (name : String) (f : XNode → XNode × List Diag)
    (hf : ∀ n, (f n).1.tag = n.tag) :
    ∀ cs : List XNode, ((replaceFirstChildD name f cs).1.map XNode.tag) = cs.map XNode.tag
  | [] => rfl
  | c :: cs => by
    unfold replaceFirstChildD
    by_cases h : (c.tag == name) = true
    · rw [if_pos h]
      dsimp only
      rw [List.map_cons, List.map_cons, hf]
    · rw [if_neg h]
      dsimp only
      rw [List.map_cons, List.map_cons, map_tag_replaceFirstChildD name f hf cs]

theorem childTags_get_child_or_create (out : XNode) (name : String)
    (f : XNode → XNode × List Diag) (hf : ∀ n, (f n).1.tag = n.tag) :
    ((get_child_or_create out name f).1.children.map XNode.tag)
      = if name ∈ out.children.map XNode.tag then out.children.map XNode.tag
        else out.children.map XNode.tag ++ [name] := by
  unfold get_child_or_create
  by_cases h : (out.children.any fun c => c.tag == name) = true
  · have hmem : name ∈ out.children.map XNode.tag := by
      obtain ⟨c, hc, ht⟩ := List.any_eq_true.mp h
      exact List.mem_map.mpr ⟨c, hc, by simpa using ht⟩
    rw [if_pos h, if_pos hmem]
    dsimp only
    rw [children_mk]
    exact map_tag_replaceFirstChildD name f hf out.children
  · have hmem : name ∉ out.children.map XNode.tag := by
      intro hm
      obtain ⟨c, hc, ht⟩ := List.mem_map.mp hm
      exact h (List.any_eq_true.mpr ⟨c, hc, by simp [ht]⟩)
    rw [if_neg h, if_neg hmem]
    dsimp only
    rw [children_mk, List.map_append, List.map_cons, List.map_nil, hf, tag_mk]

theorem countTag_get_child_or_create_self (out : XNode) (t : String)
    (f : XNode → XNode × List Diag) (hf : ∀ n, (f n).1.tag = n.tag)
    (hle : countTag out t ≤ 1) :
    countTag (get_child_or_create out t f).1 t = 1 := by
  unfold countTag at hle ⊢
  rw [childTags_get_child_or_create out t f hf]
  by_cases hmem : t ∈ out.children.map XNode.tag
  · rw [if_pos hmem]
    have := List.count_pos_iff.mpr hmem
    omega
  · rw [if_neg hmem, List.count_append, List.count_eq_zero.mpr hmem]
    simp

theorem countTag_get_child_or_create_ne (out : XNode) (name t : String)
    (f : XNode → XNode × List Diag) (hf : ∀ n, (f n).1.tag = n.tag) (hne : t ≠ name) :
    countTag (get_child_or_create out name f).1 t = countTag out t := by
  unfold countTag
  rw [childTags_get_child_or_create out name f hf]
  by_cases hmem : name ∈ out.children.map XNode.tag
  · rw [if_pos hmem]
  · rw [if_neg hmem, List.count_append, List.count_singleton]
    rw [show (name == t) = false by simp [Ne.symm hne]]
    simp

theorem countTag_gcc_chain_one (steps : List (String × (XNode → XNode × List Diag)))
    (hf : ∀ s ∈ steps, ∀ n, (s.2 n).1.tag = n.tag) (t : String) (out : XNode)
    (h1 : countTag out t = 1) :
    countTag (steps.foldl (fun o s => (get_child_or_create o s.1 s.2).1) out) t = 1 := by
  induction steps generalizing out with
  | nil => exact h1
  | cons s rest ih =>
    rw [List.foldl_cons]
    have hfs := hf s (List.mem_cons_self s rest)
    have hftail : ∀ q ∈ rest, ∀ n, (q.2 n).1.tag = n.tag :=
      fun q hq => hf q (List.mem_cons_of_mem s hq)
    by_cases hts : t = s.1
    · subst hts
      exact ih hftail _ (countTag_get_child_or_create_self out s.1 s.2 hfs (Nat.le_of_eq h1))
    · exact ih hftail _ ((countTag_get_child_or_create_ne out s.1 t s.2 hfs hts).trans h1)

theorem countTag_gcc_chain (steps : List (String × (XNode → XNode × List Diag)))
    (hf : ∀ s ∈ steps, ∀ n, (s.2 n).1.tag = n.tag) (t : String)
    (ht : t ∈ steps.map Prod.fst) (out : XNode) (hle : countTag out t ≤ 1) :
    countTag (steps.foldl (fun o s => (get_child_or_create o s.1 s.2).1) out) t = 1 := by
  induction steps generalizing out with
  | nil => cases ht
  | cons s rest ih =>
    rw [List.foldl_cons]
    have hfs := hf s (List.mem_cons_self s rest)
    have hftail : ∀ q ∈ rest, ∀ n, (q.2 n).1.tag = n.tag :=
      fun q hq => hf q (List.mem_cons_of_mem s hq)
    by_cases hts : t = s.1
    · subst hts
      exact countTag_gcc_chain_one rest hftail s.1 _
        (countTag_get_child_or_create_self out s.1 s.2 hfs hle)
    · have htr : t ∈ rest.map Prod.fst := by
        rw [List.map_cons] at ht
        rcases List.mem_cons.mp ht with h | h
        · exact absurd h hts
        · exact h
      have hle2 : countTag (get_child_or_create out s.1 s.2).1 t ≤ 1 := by
        rw [countTag_get_child_or_create_ne out s.1 t s.2 hfs hts]; exact hle
      exact ih hftail htr _ hle2


/-- Claim C8: merging one entity into an output root that holds at most one
child per recognized section tag leaves exactly one child with that tag:
the section node is created when absent (first entity) and reused, never
duplicated, when present (every later entity).  Applied along the entity
loop this is the claimed invariant for every section referenced so far. -/
theorem C8_unique_section_children (fs : String → Option XNode) (cwd : BPath)
    (robot xmlFile : String) (out out' : XNode) (ds : List Diag)
    (h : merge_mujoco_model fs cwd robot xmlFile out = .ok (out', ds))
    (t : String) (ht : t ∈ sectionTags) (hle : countTag out t ≤ 1) :
    countTag out' t = 1 := by
  unfold merge_mujoco_model at h
  cases hf : fs xmlFile with
  | none => rw [hf] at h; exact Except.noConfusion h
  | some doc =>
    rw [hf] at h
    dsimp only at h
    cases hr : findChild doc "mujoco" with
    | none => rw [hr] at h; exact Except.noConfusion h
    | some root =>
      rw [hr] at h
      dsimp only at h
      obtain ⟨rfl, -⟩ : out' = _ ∧ ds = _ := by
        have := Except.ok.inj h
        exact ⟨congrArg Prod.fst this.symm, congrArg Prod.snd this.symm⟩
      refine countTag_gcc_chain
        [("compiler", fun c => merge_mujoco_compiler xmlFile (childOrEmpty root "compiler") c),
         ("size", fun c => (merge_mujoco_size (childOrEmpty root "size") c, [])),
         ("option", fun c => merge_mujoco_option xmlFile (childOrEmpty root "option") c),
         ("default", fun c => merge_mujoco_default xmlFile (childOrEmpty root "default") c robot),
         ("visual", fun c => merge_mujoco_visual xmlFile (childOrEmpty root "visual") c),
         ("asset", fun c => (merge_mujoco_asset cwd (childOrEmpty root "asset") c
            (get_mujoco_path cwd xmlFile root "meshdir")
            (get_mujoco_path cwd xmlFile root "texturedir") robot, [])),
         ("contact", fun c => (merge_mujoco_contact (childOrEmpty root "contact") c robot, [])),
         ("actuator", fun c => (merge_mujoco_actuator (childOrEmpty root "actuator") c robot, [])),
         ("sensor", fun c => (merge_mujoco_sensor (childOrEmpty root "sensor") c robot, [])),
         ("worldbody", fun c => (merge_mujoco_worldbody (childOrEmpty root "worldbody") c robot, []))]
        ?_ t ht out hle
      intro s hs n
      simp only [List.mem_cons, List.not_mem_nil, or_false] at hs
      rcases hs with rfl | rfl | rfl | rfl | rfl | rfl | rfl | rfl | rfl | rfl
      · exact tag_merge_mujoco_compiler ..
      · exact tag_merge_mujoco_size ..
      · exact tag_merge_mujoco_option ..
      · exact tag_merge_mujoco_default ..
      · exact tag_merge_mujoco_visual ..
      · exact tag_merge_mujoco_asset ..
      · exact tag_merge_mujoco_contact ..
      · exact tag_merge_mujoco_actuator ..
      · exact tag_merge_mujoco_sensor ..
      · exact tag_merge_mujoco_worldbody ..

/-- Witness for C8: merging an empty model into the fresh root produces
exactly one `worldbody` child. -/
theorem C8_unique_section_children_witness :
    countTag (.mk "mujoco" [("model", "mc_mujoco")]
      [.mk "compiler" [] [], .mk "size" [] [], .mk "option" [] [], .mk "default" [] [],
       .mk "visual" [] [], .mk "asset" [] [], .mk "contact" [] [], .mk "actuator" [] [],
       .mk "sensor" [] [], .mk "worldbody" [] []]) "worldbody" = 1 :=
  C8_unique_section_children
    (fun f => if f = "/r/a.xml" then some (.mk "doc" [] [.mk "mujoco" [] []]) else none)
    ⟨true, []⟩ "r1" "/r/a.xml" (.mk "mujoco" [("model", "mc_mujoco")] []) _ [] rfl
    "worldbody" (by decide) (by decide)


/-! ## Merge order: accumulation vs first-wins (C9) -/

/-- Fold `merge_mujoco_size` over the per-entity size sections in merge
order. -/
def mergeSizes (ins : List XNode) (out : XNode) : XNode :=
  ins.foldl (fun o i => merge_mujoco_size i o) out

/-- Fold `merge_mujoco_node` over per-entity (file, section-node) pairs in
merge order, keeping the merged node. -/
def mergeNodesFirst (nodeName : String) (exclude : List String)
    (ins : List (String × XNode)) (out : XNode) : XNode :=
  ins.foldl (fun o p => (merge_mujoco_node nodeName p.1 p.2 o exclude).1) out

theorem sizeAttributes_nodup : sizeAttributes.Nodup := by decide

theorem getAttr_merge_mujoco_size (inN out : XNode) (a : String)
    (ha : a ∈ sizeAttributes) :
    getAttr (merge_mujoco_size inN out) a = getAttr (mergeSizeAttr inN out a) a :=
  getAttr_foldl_mergeSizeAttr_mem inN sizeAttributes out a ha sizeAttributes_nodup

theorem mergeSizes_some (a : String) (ha : a ∈ sizeAttributes) :
    ∀ (l : List XNode) (out : XNode) (w : String), getAttr out a = some w →
      (getAttr (mergeSizes l out) a).map asInt
        = some (asInt w + ((l.filterMap (fun n => getAttr n a)).map asInt).sum)
  | [], out, w, h => by simp [mergeSizes, h]
  | n :: l, out, w, h => by
    have hfold : mergeSizes (n :: l) out = mergeSizes l (merge_mujoco_size n out) := rfl
    rw [hfold]
    cases hn : getAttr n a with
    | none =>
      have hstep : getAttr (merge_mujoco_size n out) a = some w := by
        rw [getAttr_merge_mujoco_size n out a ha, getAttr_mergeSizeAttr_self, hn]
        exact h
      rw [mergeSizes_some a ha l _ w hstep, List.filterMap_cons_none (by exact hn)]
    | some v =>
      have hstep : getAttr (merge_mujoco_size n out) a
          = some (intToDec (asInt w + asInt v)) := by
        rw [getAttr_merge_mujoco_size n out a ha, getAttr_mergeSizeAttr_self, hn, h]
      rw [mergeSizes_some a ha l _ _ hstep, List.filterMap_cons_some (by exact hn)]
      rw [List.map_cons, List.sum_cons, asInt_intToDec]
      congr 1
      ring

theorem mergeSizes_none (a : String) (ha : a ∈ sizeAttributes) :
    ∀ (l : List XNode) (out : XNode), getAttr out a = none →
      (getAttr (mergeSizes l out) a).map asInt
        = if l.filterMap (fun n => getAttr n a) = [] then none
          else some (((l.filterMap (fun n => getAttr n a)).map asInt).sum)
  | [], out, h => by simp [mergeSizes, h]
  | n :: l, out, h => by
    have hfold : mergeSizes (n :: l) out = mergeSizes l (merge_mujoco_size n out) := rfl
    rw [hfold]
    cases hn : getAttr n a with
    | none =>
      have hstep : getAttr (merge_mujoco_size n out) a = none := by
        rw [getAttr_merge_mujoco_size n out a ha, getAttr_mergeSizeAttr_self, hn]
        exact h
      rw [mergeSizes_none a ha l _ hstep, List.filterMap_cons_none (by exact hn)]
    | some v =>
      have hstep : getAttr (merge_mujoco_size n out) a = some v := by
        rw [getAttr_merge_mujoco_size n out a ha, getAttr_mergeSizeAttr_self, hn, h]
      rw [mergeSizes_some a ha l _ v hstep, List.filterMap_cons_some (by exact hn),
        if_neg (List.cons_ne_nil v _)]
      rw [List.map_cons, List.sum_cons]

theorem getAttr_mergeNode_into_none (nm fi : String) (ex : List String) (b : String)
    (hex : b ∉ ex) :
    ∀ (ps : List (String × String)) (acc : XNode × List Diag),
      getAttr acc.1 b = none →
      getAttr (ps.foldl (mergeNodeStep ex nm fi) acc).1 b
        = (ps.find? (fun p => p.1 == b)).map (fun p => p.2)
  | [], acc, h => h
  | p :: ps, acc, h => by
    rw [List.foldl_cons]
    cases hpb : p.1 == b with
    | true =>
      have hp1 : p.1 = b := by simpa using hpb
      rw [List.find?_cons_of_pos ps hpb]
      have hpex : p.1 ∉ ex := by rw [hp1]; exact hex
      have hstep : getAttr (mergeNodeStep ex nm fi acc p).1 b = some p.2 := by
        unfold mergeNodeStep
        rw [if_neg (by simpa using hpex), hp1, h]
        dsimp only
        exact getAttr_appendAttr_self acc.1 b p.2 h
      rw [getAttr_foldl_mergeNode_some ex nm fi ps _ b p.2 hstep]
      rfl
    | false =>
      rw [List.find?_cons_of_neg ps (by simp [hpb])]
      have hp1 : b ≠ p.1 := by
        simp only [beq_eq_false_iff_ne] at hpb
        exact Ne.symm hpb
      have hstep : getAttr (mergeNodeStep ex nm fi acc p).1 b = none := by
        rw [getAttr_mergeNodeStep_ne ex nm fi acc p b hp1]
        exact h
      exact getAttr_mergeNode_into_none nm fi ex b hex ps _ hstep

theorem mergeNodesFirst_some (nodeName : String) (exclude : List String) (b w : String) :
    ∀ (ins : List (String × XNode)) (o : XNode), getAttr o b = some w →
      getAttr (mergeNodesFirst nodeName exclude ins o) b = some w
  | [], _o, h => h
  | (fi, i) :: ins, o, h =>
    mergeNodesFirst_some nodeName exclude b w ins _
      (getAttr_foldl_mergeNode_some exclude nodeName fi i.attrs (o, []) b w h)

theorem mergeNodesFirst_head? (nodeName b : String) (exclude : List String)
    (hex : b ∉ exclude) :
    ∀ (ins : List (String × XNode)) (o : XNode), getAttr o b = none →
      getAttr (mergeNodesFirst nodeName exclude ins o) b
        = (ins.filterMap (fun p => getAttr p.2 b)).head?
  | [], _o, h => by simpa [mergeNodesFirst]
  | (fi, i) :: ins, o, h => by
    have hstep : getAttr (merge_mujoco_node nodeName fi i o exclude).1 b = getAttr i b :=
      getAttr_mergeNode_into_none nodeName fi exclude b hex i.attrs (o, []) h
    cases hib : getAttr i b with
    | none =>
      rw [hib] at hstep
      have hrec := mergeNodesFirst_head? nodeName b exclude hex ins
        (merge_mujoco_node nodeName fi i o exclude).1 hstep
      rw [show mergeNodesFirst nodeName exclude ((fi, i) :: ins) o
          = mergeNodesFirst nodeName exclude ins
            (merge_mujoco_node nodeName fi i o exclude).1 from rfl,
        hrec, List.filterMap_cons_none (by exact hib)]
    | some v =>
      rw [hib] at hstep
      rw [show mergeNodesFirst nodeName exclude ((fi, i) :: ins) o
          = mergeNodesFirst nodeName exclude ins
            (merge_mujoco_node nodeName fi i o exclude).1 from rfl,
        mergeNodesFirst_some nodeName exclude b v ins _ hstep,
        List.filterMap_cons_some (by exact hib)]
      rfl

/-- Claim C9: folding entities in any order gives the same accumulated
integer value for each size counter (integer accumulation is commutative
over merge order), while a generic attribute merged into an initially
absent slot always ends up with the first-processed entity's value, so
reordering entities can change which conflicting value wins. -/
theorem C9_size_accumulation_perm_invariant_first_wins_order
    (l1 l2 : List XNode) (hperm : l1.Perm l2) (out : XNode) (a : String)
    (ha : a ∈ sizeAttributes) :
    ((getAttr (mergeSizes l1 out) a).map asInt
      = (getAttr (mergeSizes l2 out) a).map asInt) ∧
    (∀ (nodeName b : String) (exclude : List String)
        (ins : List (String × XNode)) (o : XNode),
      getAttr o b = none → b ∉ exclude →
      getAttr (mergeNodesFirst nodeName exclude ins o) b
        = (ins.filterMap (fun p => getAttr p.2 b)).head?) := by
  constructor
  · have hvals : (l1.filterMap (fun n => getAttr n a)).Perm
        (l2.filterMap (fun n => getAttr n a)) := hperm.filterMap _
    have hsum : ((l1.filterMap (fun n => getAttr n a)).map asInt).sum
        = ((l2.filterMap (fun n => getAttr n a)).map asInt).sum :=
      (hvals.map asInt).sum_eq
    cases hout : getAttr out a with
    | some w =>
      rw [mergeSizes_some a ha l1 out w hout, mergeSizes_some a ha l2 out w hout, hsum]
    | none =>
      rw [mergeSizes_none a ha l1 out hout, mergeSizes_none a ha l2 out hout]
      by_cases hnil : l1.filterMap (fun n => getAttr n a) = []
      · have hnil2 : l2.filterMap (fun n => getAttr n a) = [] :=
          (hnil ▸ hvals : ([] : List String).Perm _).symm.eq_nil
        rw [if_pos hnil, if_pos hnil2]
      · have hnil2 : ¬ l2.filterMap (fun n => getAttr n a) = [] := by
          intro hc
          exact hnil (hc ▸ hvals : _).eq_nil
        rw [if_neg hnil, if_neg hnil2, hsum]
  · intro nodeName b exclude ins o ho hbex
    exact mergeNodesFirst_head? nodeName b exclude hbex ins o ho

/-- Witness for C9: swapping two entities leaves `njmax` accumulation
unchanged, while the winning `offwidth` value flips between the two
orders. -/
theorem C9_size_accumulation_perm_invariant_first_wins_order_witness :
    ((getAttr (mergeSizes [XNode.mk "size" [("njmax", "10")] [],
        XNode.mk "size" [("njmax", "5")] []] (XNode.mk "size" [] [])) "njmax").map asInt
      = (getAttr (mergeSizes [XNode.mk "size" [("njmax", "5")] [],
        XNode.mk "size" [("njmax", "10")] []] (XNode.mk "size" [] [])) "njmax").map asInt)
    ∧ getAttr (mergeNodesFirst "visual/global" []
        [("a.xml", XNode.mk "global" [("offwidth", "800")] []),
         ("b.xml", XNode.mk "global" [("offwidth", "1024")] [])] (XNode.mk "global" [] []))
        "offwidth" = some "800"
    ∧ getAttr (mergeNodesFirst "visual/global" []
        [("b.xml", XNode.mk "global" [("offwidth", "1024")] []),
         ("a.xml", XNode.mk "global" [("offwidth", "800")] [])] (XNode.mk "global" [] []))
        "offwidth" = some "1024" := by
  have h := C9_size_accumulation_perm_invariant_first_wins_order
    [XNode.mk "size" [("njmax", "10")] [], XNode.mk "size" [("njmax", "5")] []]
    [XNode.mk "size" [("njmax", "5")] [], XNode.mk "size" [("njmax", "10")] []]
    (List.Perm.swap (XNode.mk "size" [("njmax", "5")] []) (XNode.mk "size" [("njmax", "10")] []) [])
    (XNode.mk "size" [] []) "njmax" (by decide)
  refine ⟨h.1, ?_, ?_⟩
  · exact (h.2 "visual/global" "offwidth" []
      [("a.xml", XNode.mk "global" [("offwidth", "800")] []),
       ("b.xml", XNode.mk "global" [("offwidth", "1024")] [])]
      (XNode.mk "global" [] []) rfl (by decide)).trans rfl
  · exact (h.2 "visual/global" "offwidth" []
      [("b.xml", XNode.mk "global" [("offwidth", "1024")] []),
       ("a.xml", XNode.mk "global" [("offwidth", "800")] [])]
      (XNode.mk "global" [] []) rfl (by decide)).trans rfl

end McMujoco
